import Mathlib

/-!
Verification of the observable state core of the project-board application:
the `Project` entity and the `ProjectState` singleton store
(`addListener`, `addProject`, `moveProject`, `updateListeners`).

The embedding is a shallow one, translated from the TypeScript source:

* `ProjectStatus`, `Project` follow the `Project` entity class
  (fields `id`, `title`, `description`, `people`, `status`).
* `ProjectState` holds the registered listener callbacks and the ordered
  project list.  Listener callbacks are opaque to the store (it only ever
  pushes them and invokes them), so they are embedded as opaque tokens
  (`Nat`); a mutation returns, next to the new store, the *invocation
  trace*: the list of (listener, argument) callback invocations the
  operation performs, in order.
* `Math.random().toString()` — the id generator — is nondeterministic, so
  the generated id is an explicit parameter of `addProject`.
* JS `Array.prototype.findIndex` (returning `-1` on no match) is embedded
  as `findIndex` returning `Option Nat`.

A second, heap-level model (`Mem`) of arrays-as-references appears further
down to reason about the snapshot copy `[...this.projects]` sent to
listeners, and a `Registry` model embeds the static-field singleton
accessor `getInstance`.
-/

namespace Spec2Proof

/-- `enum ProjectStatus { Active, Finished }`. -/
inductive ProjectStatus
  | Active
  | Finished
deriving DecidableEq, Repr

/-- The `Project` entity class: `id`, `title`, `description`, `people`,
`status`.  `people` is a TS `number` used as an integer count. -/
structure Project where
  id : String
  title : String
  description : String
  people : Int
  status : ProjectStatus
deriving DecidableEq, Repr

/-- One callback invocation observed during a mutation: which registered
listener token was called, and the project list value it received. -/
abbrev Invocation := Nat × List Project

/-- JS `Array.prototype.findIndex`: index of the first element satisfying
the predicate, scanning left to right (`none` embeds JS's `-1`). -/
def findIndex (p : α → Bool) : List α → Option Nat
  | [] => none
  | x :: xs => if p x then some 0 else (findIndex p xs).map (· + 1)

/-- The `ProjectState` store: the listener list inherited from `State`
and the private ordered project list. -/
structure ProjectState where
  listeners : List Nat
  projects : List Project
deriving DecidableEq, Repr

/-- `State.addListener`: `this.listeners.push(listenerFunc)`.  Its body
invokes no callback, hence the empty invocation trace. -/
def ProjectState.addListener (s : ProjectState) (listenerFunc : Nat) :
    ProjectState × List Invocation :=
  ({ s with listeners := s.listeners ++ [listenerFunc] }, [])

/-- `ProjectState.updateListeners`: `forEach` over the listener list,
calling each with (a copy of) the current project list.  The value-level
trace records each invocation in order. -/
def ProjectState.updateListeners (s : ProjectState) : List Invocation :=
  s.listeners.map (fun listenerFunc => (listenerFunc, s.projects))

/-- `ProjectState.addProject`: builds a `Project` with the freshly
generated id (`Math.random().toString()`, here the explicit `randomId`
parameter) and status `Active`, pushes it, then `updateListeners`. -/
def ProjectState.addProject (s : ProjectState) (randomId title description : String)
    (numOfPeople : Int) : ProjectState × List Invocation :=
  let project : Project := ⟨randomId, title, description, numOfPeople, ProjectStatus.Active⟩
  let s' : ProjectState := { s with projects := s.projects ++ [project] }
  (s', s'.updateListeners)

/-- `ProjectState.moveProject`: `findIndex` on id; early-return when the
id is absent or the status is already `newStatus`; otherwise mutate the
entry's `status` in place and `updateListeners`. -/
def ProjectState.moveProject (s : ProjectState) (projectId : String)
    (newStatus : ProjectStatus) : ProjectState × List Invocation :=
  match findIndex (fun p => p.id == projectId) s.projects with
  | none => (s, [])
  | some projectIndex =>
    match s.projects[projectIndex]? with
    | none => (s, [])
    | some p =>
      if p.status == newStatus then (s, [])
      else
        let s' : ProjectState :=
          { s with projects := s.projects.set projectIndex { p with status := newStatus } }
        (s', s'.updateListeners)

/-! ### Lemmas about `findIndex` -/

theorem findIndex_eq_none_iff {p : α → Bool} {l : List α} :
    findIndex p l = none ↔ ∀ x ∈ l, p x = false := by
  induction l with
  | nil => simp [findIndex]
  | cons a xs ih =>
    by_cases h : p a
    · simp [findIndex, h]
    · simp only [findIndex, if_neg h, Option.map_eq_none', ih, List.mem_cons]
      constructor
      · intro hall x hx
        rcases hx with rfl | hx
        · exact Bool.of_not_eq_true h
        · exact hall x hx
      · intro hall x hx
        exact hall x (Or.inr hx)

theorem findIndex_eq_some_of {p : α → Bool} {l : List α} {i : Nat} {x : α}
    (hx : l[i]? = some x) (hpx : p x = true)
    (hprev : ∀ j, j < i → ∀ y, l[j]? = some y → p y = false) :
    findIndex p l = some i := by
  induction l generalizing i with
  | nil => simp at hx
  | cons a xs ih =>
    cases i with
    | zero =>
      simp only [List.getElem?_cons_zero, Option.some_inj] at hx
      subst hx
      simp [findIndex, hpx]
    | succ j =>
      have ha : p a = false := hprev 0 (Nat.succ_pos j) a (by simp)
      simp only [List.getElem?_cons_succ] at hx
      have := ih hx (fun k hk y hy =>
        hprev (k + 1) (Nat.succ_lt_succ hk) y (by simpa using hy))
      simp [findIndex, ha, this]

theorem findIndex_some_spec {p : α → Bool} {l : List α} {i : Nat}
    (h : findIndex p l = some i) : ∃ x, l[i]? = some x ∧ p x = true := by
  induction l generalizing i with
  | nil => simp [findIndex] at h
  | cons a xs ih =>
    by_cases ha : p a
    · simp only [findIndex, if_pos ha, Option.some_inj] at h
      subst h
      exact ⟨a, by simp, ha⟩
    · simp only [findIndex, if_neg ha, Option.map_eq_some'] at h
      obtain ⟨j, hj, rfl⟩ := h
      obtain ⟨x, hx, hpx⟩ := ih hj
      exact ⟨x, by simpa using hx, hpx⟩

/-! ### Lemmas about `updateListeners` -/

theorem updateListeners_map_fst (s : ProjectState) :
    s.updateListeners.map Prod.fst = s.listeners := by
  simp [ProjectState.updateListeners, List.map_map, Function.comp_def]

theorem updateListeners_count_fst (s : ProjectState) (l : Nat) :
    (s.updateListeners.map Prod.fst).count l = s.listeners.count l := by
  rw [updateListeners_map_fst]

/-! ### C1: `addProject` appends an `Active` entry and notifies every listener once -/

/-- C1: `addProject(title, description, people)` grows the stored project
sequence by exactly one; the new entry is appended at the end with status
`Active` and the given title, description and people; and the invocation
trace calls every listener registered at that moment exactly once (once
per registration, in order), each receiving the full sequence whose last
element is the new entry. -/
theorem addProject_appends_and_notifies (s : ProjectState)
    (randomId title description : String) (numOfPeople : Int) :
    ((s.addProject randomId title description numOfPeople).1.projects
        = s.projects ++ [⟨randomId, title, description, numOfPeople, ProjectStatus.Active⟩]) ∧
    ((s.addProject randomId title description numOfPeople).1.projects.length
        = s.projects.length + 1) ∧
    ((s.addProject randomId title description numOfPeople).1.projects.getLast?
        = some ⟨randomId, title, description, numOfPeople, ProjectStatus.Active⟩) ∧
    ((s.addProject randomId title description numOfPeople).1.listeners = s.listeners) ∧
    ((s.addProject randomId title description numOfPeople).2
        = s.listeners.map (fun l =>
            (l, (s.addProject randomId title description numOfPeople).1.projects))) ∧
    (∀ l, (((s.addProject randomId title description numOfPeople).2.map Prod.fst).count l)
        = s.listeners.count l) := by
  refine ⟨rfl, by simp [ProjectState.addProject], List.getLast?_concat _, rfl, rfl, ?_⟩
  intro l
  exact updateListeners_count_fst _ l

/-! ### C9: `addListener` only appends the callback -/

/-- C9: `addListener(callback)` appends the callback to the listener list
and does nothing else: the project sequence is unchanged and no listener
(in particular not the new one) is invoked. -/
theorem addListener_appends_only (s : ProjectState) (listenerFunc : Nat) :
    ((s.addListener listenerFunc).1.listeners = s.listeners ++ [listenerFunc]) ∧
    ((s.addListener listenerFunc).1.projects = s.projects) ∧
    ((s.addListener listenerFunc).2 = []) :=
  ⟨rfl, rfl, rfl⟩

/-! ### C8: notification order is registration order -/

/-- C8: on every mutation that notifies, the listeners are invoked exactly
in registration order: the invocation trace of `addProject` projects to the
listener list itself, and `moveProject` either notifies nobody or likewise
invokes the listeners in registration order. -/
theorem notifications_follow_registration_order :
    (∀ (s : ProjectState) randomId title description numOfPeople,
      (s.addProject randomId title description numOfPeople).2.map Prod.fst = s.listeners) ∧
    (∀ (s : ProjectState) projectId newStatus,
      (s.moveProject projectId newStatus).2 = [] ∨
      (s.moveProject projectId newStatus).2.map Prod.fst = s.listeners) := by
  constructor
  · intro s randomId title description numOfPeople
    exact updateListeners_map_fst _
  · intro s projectId newStatus
    unfold ProjectState.moveProject
    rcases hfi : findIndex (fun p => p.id == projectId) s.projects with _ | i <;>
      simp only [hfi]
    · exact Or.inl trivial
    · rcases hp : s.projects[i]? with _ | p <;> simp only [hp]
      · exact Or.inl trivial
      · by_cases hst : (p.status == newStatus)
        · simp only [hst, if_true]
          exact Or.inl trivial
        · simp only [Bool.not_eq_true] at hst
          simp only [hst, Bool.false_eq_true, if_false]
          exact Or.inr (updateListeners_map_fst _)

/-! ### C10: a callback registered n times is invoked n times per notification -/

/-- C10: registering the same callback repeatedly is permitted —
`addListener` increments its registration count by one each time — and on
every notifying mutation a callback registered n times is invoked exactly
n times (`addProject` always notifies; `moveProject` either invokes nobody
or invokes each callback once per registration). -/
theorem repeated_registration_repeats_invocation :
    (∀ (s : ProjectState) f,
      (s.addListener f).1.listeners.count f = s.listeners.count f + 1) ∧
    (∀ (s : ProjectState) f randomId title description numOfPeople,
      ((s.addProject randomId title description numOfPeople).2.map Prod.fst).count f
        = s.listeners.count f) ∧
    (∀ (s : ProjectState) f projectId newStatus,
      (s.moveProject projectId newStatus).2 = [] ∨
      ((s.moveProject projectId newStatus).2.map Prod.fst).count f
        = s.listeners.count f) := by
  refine ⟨?_, ?_, ?_⟩
  · intro s f
    simp [ProjectState.addListener]
  · intro s f randomId title description numOfPeople
    exact updateListeners_count_fst _ f
  · intro s f projectId newStatus
    unfold ProjectState.moveProject
    rcases hfi : findIndex (fun p => p.id == projectId) s.projects with _ | i <;>
      simp only [hfi]
    · exact Or.inl trivial
    · rcases hp : s.projects[i]? with _ | p <;> simp only [hp]
      · exact Or.inl trivial
      · by_cases hst : (p.status == newStatus)
        · simp only [hst, if_true]
          exact Or.inl trivial
        · simp only [Bool.not_eq_true] at hst
          simp only [hst, Bool.false_eq_true, if_false]
          exact Or.inr (updateListeners_count_fst _ f)

/-! ### Lemmas about `moveProject` -/

theorem lt_length_of_getElem?_eq_some {l : List α} {i : Nat} {x : α}
    (h : l[i]? = some x) : i < l.length :=
  (List.getElem?_eq_some.mp h).1

/-- When the stored ids are pairwise distinct, the `findIndex` scan of
`moveProject` locates exactly the position of the project bearing the
requested id. -/
theorem findIndex_id_of_nodup {l : List Project} {i : Nat} {x : Project}
    (hnd : (l.map Project.id).Nodup) (hx : l[i]? = some x) :
    findIndex (fun p => p.id == x.id) l = some i := by
  refine findIndex_eq_some_of hx (by simp) ?_
  intro j hj y hy
  by_contra hcon
  simp only [Bool.not_eq_false, beq_iff_eq] at hcon
  have hjlen : j < l.length := lt_length_of_getElem?_eq_some hy
  have hmapj : (l.map Project.id)[j]? = some x.id := by
    simp [List.getElem?_map, hy, hcon]
  have hmapi : (l.map Project.id)[i]? = some x.id := by
    simp [List.getElem?_map, hx]
  have : j = i := List.getElem?_inj (by simpa using hjlen) hnd (hmapj.trans hmapi.symm)
  omega

theorem moveProject_eq_of_found {s : ProjectState} {projectId : String} {i : Nat}
    {p : Project} {newStatus : ProjectStatus}
    (hfi : findIndex (fun q => q.id == projectId) s.projects = some i)
    (hp : s.projects[i]? = some p) (hst : p.status ≠ newStatus) :
    s.moveProject projectId newStatus =
      ({ s with projects := s.projects.set i { p with status := newStatus } },
        ProjectState.updateListeners
          { s with projects := s.projects.set i { p with status := newStatus } }) := by
  unfold ProjectState.moveProject
  have hb : (p.status == newStatus) = false := by simp [hst]
  simp only [hfi, hp, hb, Bool.false_eq_true, if_false]

/-! ### C2: `moveProject` on an existing entry with a different status -/

/-- C2: when the store (whose ids are pairwise distinct, per the data
model) holds at position `i` a project `p` whose status differs from
`newStatus`, `moveProject p.id newStatus` sets exactly that entry's
status to `newStatus`, leaves every other entry and all other fields of
the matched entry unchanged, preserves the length and ordering of the
sequence, and invokes each registered listener exactly once, in order,
with the updated full sequence. -/
theorem moveProject_updates_only_target (s : ProjectState) (i : Nat) (p : Project)
    (newStatus : ProjectStatus)
    (hnd : (s.projects.map Project.id).Nodup)
    (hp : s.projects[i]? = some p)
    (hst : p.status ≠ newStatus) :
    ((s.moveProject p.id newStatus).1.projects.length = s.projects.length) ∧
    ((s.moveProject p.id newStatus).1.projects[i]? = some { p with status := newStatus }) ∧
    (∀ j, j ≠ i → (s.moveProject p.id newStatus).1.projects[j]? = s.projects[j]?) ∧
    ((s.moveProject p.id newStatus).1.listeners = s.listeners) ∧
    ((s.moveProject p.id newStatus).2
        = s.listeners.map (fun l => (l, (s.moveProject p.id newStatus).1.projects))) ∧
    (∀ l, ((s.moveProject p.id newStatus).2.map Prod.fst).count l = s.listeners.count l) := by
  have hfi := findIndex_id_of_nodup hnd hp
  have heq := moveProject_eq_of_found hfi hp hst
  rw [heq]
  refine ⟨by simp, ?_, ?_, rfl, rfl, fun l => updateListeners_count_fst _ l⟩
  · exact List.getElem?_set_self (lt_length_of_getElem?_eq_some hp)
  · intro j hj
    exact List.getElem?_set_ne (fun h => hj h.symm)

/-- A concrete two-project, one-listener store used to witness the
`moveProject` theorems. -/
def sampleStore : ProjectState :=
  ⟨[7], [⟨"a", "A", "docs", 1, ProjectStatus.Active⟩,
    ⟨"b", "B", "demo", 2, ProjectStatus.Active⟩]⟩

/-- The first project of `sampleStore`. -/
def sampleProject : Project := ⟨"a", "A", "docs", 1, ProjectStatus.Active⟩

/-- C2 witness: moving the first project of the concrete store to
`Finished`. -/
theorem moveProject_updates_only_target_witness :
    ((sampleStore.projects.map Project.id).Nodup) ∧
    (sampleStore.projects[0]? = some sampleProject) ∧
    (sampleProject.status ≠ ProjectStatus.Finished) ∧
    (((sampleStore.moveProject sampleProject.id ProjectStatus.Finished).1.projects.length
        = sampleStore.projects.length) ∧
      ((sampleStore.moveProject sampleProject.id ProjectStatus.Finished).1.projects[0]?
        = some { sampleProject with status := ProjectStatus.Finished }) ∧
      (∀ j, j ≠ 0 →
        (sampleStore.moveProject sampleProject.id ProjectStatus.Finished).1.projects[j]?
          = sampleStore.projects[j]?) ∧
      ((sampleStore.moveProject sampleProject.id ProjectStatus.Finished).1.listeners
        = sampleStore.listeners) ∧
      ((sampleStore.moveProject sampleProject.id ProjectStatus.Finished).2
        = sampleStore.listeners.map (fun l =>
            (l, (sampleStore.moveProject sampleProject.id ProjectStatus.Finished).1.projects))) ∧
      (∀ l,
        ((sampleStore.moveProject sampleProject.id ProjectStatus.Finished).2.map
            Prod.fst).count l
          = sampleStore.listeners.count l)) :=
  ⟨by decide, by decide, by decide,
    moveProject_updates_only_target sampleStore 0 sampleProject ProjectStatus.Finished
      (by decide) (by decide) (by decide)⟩

/-! ### C3: `moveProject` with an unknown id is a silent no-op -/

/-- C3: when no stored project bears the requested id, `moveProject` is a
silent no-op: the store (projects and listeners alike) is returned
unchanged and the invocation trace is empty, so zero listener callbacks
run and no error is raised (the operation is total). -/
theorem moveProject_unknown_id_noop (s : ProjectState) (projectId : String)
    (newStatus : ProjectStatus)
    (h : ∀ p ∈ s.projects, p.id ≠ projectId) :
    s.moveProject projectId newStatus = (s, []) := by
  have hfi : findIndex (fun p => p.id == projectId) s.projects = none :=
    findIndex_eq_none_iff.mpr (fun x hx => by simp [h x hx])
  unfold ProjectState.moveProject
  simp only [hfi]

/-- C3 witness: moving an id absent from the concrete store. -/
theorem moveProject_unknown_id_noop_witness :
    (∀ p ∈ sampleStore.projects, p.id ≠ "zzz") ∧
    (sampleStore.moveProject "zzz" ProjectStatus.Finished = (sampleStore, [])) :=
  ⟨by decide, moveProject_unknown_id_noop sampleStore "zzz" ProjectStatus.Finished (by decide)⟩

/-! ### C4: `moveProject` to the already-current status is a silent no-op -/

/-- C4: when the store (whose ids are pairwise distinct, per the data
model) holds a project with the requested id whose status already equals
`newStatus`, `moveProject` is a silent no-op: the state is unchanged and
the invocation trace is empty, so zero listener callbacks run. -/
theorem moveProject_same_status_noop (s : ProjectState) (i : Nat) (p : Project)
    (newStatus : ProjectStatus)
    (hnd : (s.projects.map Project.id).Nodup)
    (hp : s.projects[i]? = some p)
    (hst : p.status = newStatus) :
    s.moveProject p.id newStatus = (s, []) := by
  have hfi := findIndex_id_of_nodup hnd hp
  unfold ProjectState.moveProject
  simp only [hfi, hp]
  simp [hst]

/-- C4 witness: moving the first project of the concrete store to the
status it already has. -/
theorem moveProject_same_status_noop_witness :
    ((sampleStore.projects.map Project.id).Nodup) ∧
    (sampleStore.projects[0]? = some sampleProject) ∧
    (sampleProject.status = ProjectStatus.Active) ∧
    (sampleStore.moveProject sampleProject.id ProjectStatus.Active = (sampleStore, [])) :=
  ⟨by decide, by decide, by decide,
    moveProject_same_status_noop sampleStore 0 sampleProject ProjectStatus.Active
      (by decide) (by decide) (by decide)⟩

/-! ### Heap model for the snapshot copy `[...this.projects]`

JS arrays and `Project` objects are reference values.  `Mem` is the heap:
`records` holds the `Project` objects (addressed by `Nat` references) and
`arrays` holds the arrays of record references.  The store's internal
`this.projects` is one array address; `updateListeners` hands each
listener the address of a *freshly allocated* array holding the same
record references — exactly what the spread `[...this.projects]` builds. -/

structure Mem where
  records : List Project
  arrays : List (List Nat)
deriving DecidableEq, Repr

/-- Read the array object at address `r` (empty for a dangling address). -/
def Mem.readArray (m : Mem) (r : Nat) : List Nat :=
  (m.arrays[r]?).getD []

/-- Read the `Project` record at address `r`. -/
def Mem.readRecord (m : Mem) (r : Nat) : Option Project :=
  m.records[r]?

/-- Overwrite the array object at address `r` (a subscriber mutating an
array it holds, e.g. pushing, popping or reassigning elements). -/
def Mem.writeArray (m : Mem) (r : Nat) (xs : List Nat) : Mem :=
  { m with arrays := m.arrays.set r xs }

/-- Overwrite the `Project` record at address `r` (a subscriber mutating
a record's fields through a reference it holds). -/
def Mem.writeRecord (m : Mem) (r : Nat) (p : Project) : Mem :=
  { m with records := m.records.set r p }

/-- Allocate a new array object, returning its fresh address. -/
def Mem.allocArray (m : Mem) (xs : List Nat) : Mem × Nat :=
  ({ m with arrays := m.arrays ++ [xs] }, m.arrays.length)

/-- `[...this.projects]`: allocate a fresh array containing the same
record references as the array at `storeArr` (a shallow copy). -/
def Mem.snapshotArray (m : Mem) (storeArr : Nat) : Mem × Nat :=
  m.allocArray (m.readArray storeArr)

/-- The project list an owner of array address `r` observes: dereference
each record reference in the array. -/
def Mem.viewArray (m : Mem) (r : Nat) : List (Option Project) :=
  (m.readArray r).map (fun ref => m.readRecord ref)

/-! ### C5: subscribers get a shallow copy, so records stay shared -/

/-- C5 counterexample: a concrete one-project heap.  The store's array
lives at address 0 and holds record reference 0. -/
def memC5 : Mem := ⟨[⟨"1", "A", "docs", 3, ProjectStatus.Active⟩], [[0]]⟩

/-- C5 counterexample: in the concrete heap `memC5`, the snapshot handed
to a subscriber contains record reference 0; the snapshot itself leaves
the store's array untouched, yet when the subscriber overwrites the
record at reference 0 — a record *inside the copy it received* — the
store's observed project list changes.  This refutes the claim that a
subscriber mutating a record inside the received copy cannot change the
store's internal state. -/
theorem snapshot_record_mutation_reaches_store :
    (0 ∈ (memC5.snapshotArray 0).1.readArray (memC5.snapshotArray 0).2) ∧
    ((memC5.snapshotArray 0).1.readArray 0 = memC5.readArray 0) ∧
    (((memC5.snapshotArray 0).1.writeRecord 0
        ⟨"1", "HACKED", "docs", 3, ProjectStatus.Active⟩).viewArray 0
      ≠ memC5.viewArray 0) := by
  refine ⟨by decide, by decide, ?_⟩
  intro h
  simp only [Mem.snapshotArray, Mem.allocArray, Mem.readArray, Mem.writeRecord,
    Mem.viewArray, Mem.readRecord, memC5] at h
  simp at h

/-- C5 amended: the notification snapshot is a *shallow* copy.  For a
store whose array address is valid, the snapshot address is distinct
from the store's array address, the snapshot holds the same record
references as the store's current list, taking the snapshot does not
disturb the store's array, and however the subscriber overwrites the
array object it received, the store's internal array is unchanged.  (The
record objects themselves remain shared — see the counterexample.) -/
theorem snapshot_is_fresh_shallow_copy (m : Mem) (storeArr : Nat)
    (h : storeArr < m.arrays.length) :
    ((m.snapshotArray storeArr).2 ≠ storeArr) ∧
    ((m.snapshotArray storeArr).1.readArray (m.snapshotArray storeArr).2
        = m.readArray storeArr) ∧
    ((m.snapshotArray storeArr).1.readArray storeArr = m.readArray storeArr) ∧
    (∀ xs, (((m.snapshotArray storeArr).1.writeArray (m.snapshotArray storeArr).2 xs).readArray
        storeArr) = m.readArray storeArr) := by
  refine ⟨by simp only [Mem.snapshotArray, Mem.allocArray]; omega, ?_, ?_, ?_⟩
  · simp [Mem.snapshotArray, Mem.allocArray, Mem.readArray]
  · simp [Mem.snapshotArray, Mem.allocArray, Mem.readArray,
      List.getElem?_append_left h]
  · intro xs
    simp only [Mem.snapshotArray, Mem.allocArray, Mem.writeArray, Mem.readArray]
    rw [List.getElem?_set_ne (by omega)]
    simp [List.getElem?_append_left h]

/-- C5 amended witness: the shallow-copy guarantees at the concrete heap
`memC5`. -/
theorem snapshot_is_fresh_shallow_copy_witness :
    (0 < memC5.arrays.length) ∧
    (((memC5.snapshotArray 0).2 ≠ 0) ∧
      ((memC5.snapshotArray 0).1.readArray (memC5.snapshotArray 0).2
          = memC5.readArray 0) ∧
      ((memC5.snapshotArray 0).1.readArray 0 = memC5.readArray 0) ∧
      (∀ xs, (((memC5.snapshotArray 0).1.writeArray (memC5.snapshotArray 0).2 xs).readArray 0)
          = memC5.readArray 0)) :=
  ⟨by decide, snapshot_is_fresh_shallow_copy memC5 0 (by decide)⟩

/-! ### C6: the singleton accessor `getInstance`

`ProjectState.instance` is a static field holding a reference to the one
store instance.  `Registry` models the static field together with the
heap of constructed `ProjectState` instances (addressed by `Nat`
references); `getInstance` is
`if (!this.instance) this.instance = new ProjectState(); return this.instance`. -/

structure Registry where
  stores : List ProjectState
  instanceRef : Option Nat
deriving DecidableEq, Repr

/-- `ProjectState.getInstance`: return the stored instance reference,
constructing (allocating) the single instance first if the static field
is still unset.  `new ProjectState()` builds a store with empty listener
and project lists. -/
def Registry.getInstance (g : Registry) : Registry × Nat :=
  match g.instanceRef with
  | some r => (g, r)
  | none =>
    ({ stores := g.stores ++ [⟨[], []⟩], instanceRef := some g.stores.length },
      g.stores.length)

/-- A registry is well formed when its static field, if set, references a
constructed instance. -/
def Registry.wf (g : Registry) : Prop :=
  ∀ r, g.instanceRef = some r → r < g.stores.length

/-- C6: on any well-formed registry, a second call to `getInstance`
returns the same reference as the first and leaves the registry
unchanged — there is a single store instance — and the reference is
valid, so a mutation installed through the first call's reference is
read back through the second call's reference. -/
theorem getInstance_singleton (g : Registry) (h : g.wf) :
    (((g.getInstance).1.getInstance).2 = (g.getInstance).2) ∧
    (((g.getInstance).1.getInstance).1 = (g.getInstance).1) ∧
    ((g.getInstance).2 < (g.getInstance).1.stores.length) ∧
    (∀ st : ProjectState,
      ((g.getInstance).1.stores.set (g.getInstance).2 st)[((g.getInstance).1.getInstance).2]?
        = some st) := by
  rcases hg : g.instanceRef with _ | r
  · have h1 : g.getInstance
        = ({ stores := g.stores ++ [⟨[], []⟩], instanceRef := some g.stores.length },
            g.stores.length) := by
      unfold Registry.getInstance
      rw [hg]
    have hlen : g.stores.length < g.stores.length + 1 := Nat.lt_succ_self _
    refine ⟨?_, ?_, ?_, ?_⟩ <;> rw [h1] <;>
      simp [Registry.getInstance, List.getElem?_set_self, hlen]
  · have hr : r < g.stores.length := h r hg
    have h1 : g.getInstance = (g, r) := by
      unfold Registry.getInstance
      rw [hg]
    refine ⟨?_, ?_, ?_, ?_⟩ <;> rw [h1] <;>
      simp [h1, List.getElem?_set_self, hr]

/-- The fresh registry of a process that has not yet touched the store. -/
def freshRegistry : Registry := ⟨[], none⟩

/-- C6 witness: the fresh registry (no instance constructed yet). -/
theorem getInstance_singleton_witness :
    (freshRegistry.wf) ∧
    (((freshRegistry.getInstance).1.getInstance).2 = (freshRegistry.getInstance).2) ∧
    (((freshRegistry.getInstance).1.getInstance).1 = (freshRegistry.getInstance).1) ∧
    ((freshRegistry.getInstance).2 < (freshRegistry.getInstance).1.stores.length) ∧
    (∀ st : ProjectState,
      ((freshRegistry.getInstance).1.stores.set (freshRegistry.getInstance).2
          st)[((freshRegistry.getInstance).1.getInstance).2]?
        = some st) := by
  have hwf : freshRegistry.wf := fun r hr => by simp [freshRegistry] at hr
  obtain ⟨h1, h2, h3, h4⟩ := getInstance_singleton freshRegistry hwf
  exact ⟨hwf, h1, h2, h3, h4⟩

/-! ### C7: id uniqueness and immutability over reachable states -/

theorem set_self_of_getElem? {l : List α} {i : Nat} {a : α}
    (h : l[i]? = some a) : l.set i a = l := by
  apply List.ext_getElem?
  intro j
  by_cases hj : i = j
  · subst hj
    rw [List.getElem?_set_self (lt_length_of_getElem?_eq_some h), h]
  · rw [List.getElem?_set_ne hj]

/-- `moveProject` never changes any stored id: the id sequence of the
store is preserved verbatim. -/
theorem moveProject_map_id (s : ProjectState) (projectId : String)
    (newStatus : ProjectStatus) :
    (s.moveProject projectId newStatus).1.projects.map Project.id
      = s.projects.map Project.id := by
  unfold ProjectState.moveProject
  rcases hfi : findIndex (fun p => p.id == projectId) s.projects with _ | i <;>
    simp only [hfi]
  · rcases hp : s.projects[i]? with _ | p <;> simp only [hp]
    · by_cases hst : (p.status == newStatus)
      · simp [hst]
      · simp only [Bool.not_eq_true] at hst
        simp only [hst, Bool.false_eq_true, if_false]
        rw [List.map_set]
        exact set_self_of_getElem? (by simp [hp])

/-- The states reachable from the freshly constructed store through the
public operations, with the value returned by `Math.random().toString()`
at each `addProject` left unconstrained. -/
inductive Reachable : ProjectState → Prop
  | init : Reachable ⟨[], []⟩
  | addListener (s : ProjectState) (f : Nat) :
      Reachable s → Reachable (s.addListener f).1
  | addProject (s : ProjectState) (randomId title description : String)
      (numOfPeople : Int) :
      Reachable s → Reachable (s.addProject randomId title description numOfPeople).1
  | moveProject (s : ProjectState) (projectId : String) (newStatus : ProjectStatus) :
      Reachable s → Reachable (s.moveProject projectId newStatus).1

/-- C7 counterexample: nothing in the code stops `Math.random().toString()`
from producing the same string at two different `addProject` calls, and
when it does the reachable store holds two projects with the same id.
The concrete run below adds two projects under the generated id `"0.5"`. -/
theorem duplicate_ids_reachable :
    Reachable ((((⟨[], []⟩ : ProjectState).addProject "0.5" "A" "docs" 1).1.addProject
        "0.5" "B" "demo" 2).1) ∧
    ¬(((((⟨[], []⟩ : ProjectState).addProject "0.5" "A" "docs" 1).1.addProject
        "0.5" "B" "demo" 2).1.projects.map Project.id).Nodup) :=
  ⟨Reachable.addProject _ _ _ _ _ (Reachable.addProject _ _ _ _ _ Reachable.init),
    by decide⟩

/-- The reachable states under the extra assumption that the id generator
never hands `addProject` an id already present in the store (which
`Math.random().toString()` makes overwhelmingly likely but does not
guarantee). -/
inductive ReachableFresh : ProjectState → Prop
  | init : ReachableFresh ⟨[], []⟩
  | addListener (s : ProjectState) (f : Nat) :
      ReachableFresh s → ReachableFresh (s.addListener f).1
  | addProject (s : ProjectState) (randomId title description : String)
      (numOfPeople : Int) :
      randomId ∉ s.projects.map Project.id →
      ReachableFresh s →
      ReachableFresh (s.addProject randomId title description numOfPeople).1
  | moveProject (s : ProjectState) (projectId : String) (newStatus : ProjectStatus) :
      ReachableFresh s → ReachableFresh (s.moveProject projectId newStatus).1

/-- C7 amended: provided the generated ids are fresh (never equal to an id
already in the store — a property `Math.random().toString()` does not by
itself guarantee), every reachable store has pairwise distinct ids; and
unconditionally no operation ever changes the id of a stored project:
`moveProject` preserves the id at every position, `addProject` leaves all
existing entries untouched, and `addListener` leaves the project list
untouched. -/
theorem ids_nodup_and_immutable :
    (∀ s : ProjectState, ReachableFresh s → (s.projects.map Project.id).Nodup) ∧
    (∀ (s : ProjectState) (projectId : String) (newStatus : ProjectStatus) (i : Nat),
      ((s.moveProject projectId newStatus).1.projects[i]?).map Project.id
        = (s.projects[i]?).map Project.id) ∧
    (∀ (s : ProjectState) (randomId title description : String) (numOfPeople : Int)
      (i : Nat), i < s.projects.length →
      (s.addProject randomId title description numOfPeople).1.projects[i]?
        = s.projects[i]?) ∧
    (∀ (s : ProjectState) (f : Nat), (s.addListener f).1.projects = s.projects) := by
  refine ⟨?_, ?_, ?_, fun s f => rfl⟩
  · intro s hs
    induction hs with
    | init => simp
    | addListener s f _ ih => exact ih
    | addProject s randomId title description numOfPeople hfresh _ ih =>
      simp only [ProjectState.addProject, List.map_append, List.map_cons, List.map_nil]
      rw [List.nodup_append]
      refine ⟨ih, List.nodup_singleton _, ?_⟩
      intro a ha hb
      simp only [List.mem_singleton] at hb
      subst hb
      exact hfresh ha
    | moveProject s projectId newStatus _ ih =>
      rw [moveProject_map_id]
      exact ih
  · intro s projectId newStatus i
    have h := moveProject_map_id s projectId newStatus
    have := congrArg (fun l => l[i]?) h
    simpa using this
  · intro s randomId title description numOfPeople i hi
    simp only [ProjectState.addProject]
    exact List.getElem?_append_left hi

/-- A concrete fresh-id run: one project added under id `"0.3"`. -/
def stepA : ProjectState := ((⟨[], []⟩ : ProjectState).addProject "0.3" "A" "docs" 1).1

/-- The run continued: a second project added under id `"0.6"`. -/
def stepB : ProjectState := (stepA.addProject "0.6" "B" "demo" 2).1

/-- C7 amended witness: the invariants evaluated along the concrete
fresh-id run `stepA`, `stepB`. -/
theorem ids_nodup_and_immutable_witness :
    ((stepB.projects.map Project.id).Nodup) ∧
    (((stepA.moveProject "0.3" ProjectStatus.Finished).1.projects[0]?).map Project.id
      = (stepA.projects[0]?).map Project.id) ∧
    ((0 : Nat) < stepA.projects.length) ∧
    ((stepA.addProject "0.6" "B" "demo" 2).1.projects[0]? = stepA.projects[0]?) := by
  have hA : ReachableFresh stepA :=
    ReachableFresh.addProject ⟨[], []⟩ "0.3" "A" "docs" 1 (by decide) ReachableFresh.init
  have hB : ReachableFresh stepB :=
    ReachableFresh.addProject stepA "0.6" "B" "demo" 2 (by decide) hA
  refine ⟨?_, ?_, by decide, ?_⟩
  · exact ids_nodup_and_immutable.1 stepB hB
  · exact ids_nodup_and_immutable.2.1 stepA "0.3" ProjectStatus.Finished 0
  · exact ids_nodup_and_immutable.2.2.1 stepA "0.6" "B" "demo" 2 0 (by decide)

end Spec2Proof
